import Mathlib

/-!
# Verification of the `create_sitemap` crawler (`src/index.ts`)

Shallow embedding of the crawler in `src/index.ts`.  JavaScript objects held in
`Set`s are compared by identity, so `NodeInfo` objects are stored in a list
(`CheckerState.nodes`) and referred to by their index (their identity); the
`Map<string, NodeInfo>` becomes an association list from URL to index, where
`set` replaces an existing binding in place (JS `Map` key order).

External collaborators are oracles: puppeteer's `goto`/`title`/`$$("a")`
sequence is a function `String → FetchResult`.  `String.prototype.localeCompare`
is modelled as code-point lexicographic comparison (Lean's `≤` on `String`),
and `Error.prototype.toString()` as `"Error: " ++ message`, per ECMA-262.
JS string `.length`/`.substr` count UTF-16 units; we use Lean characters,
which agree on the ASCII hosts and URLs involved.
-/

/-- A JavaScript runtime value, as far as the `checkExternalLinks` option is
concerned: the TS annotation says `boolean`, but at runtime any value can
arrive, and line 57 compares with `=== true`. -/
inductive JSValue where
  | undef
  | null
  | bool (b : Bool)
  | num (n : Int)
  | str (s : String)
  deriving Repr, DecidableEq

/-- JS truthiness of a `JSValue`. -/
def JSValue.truthy : JSValue → Bool
  | .undef => false
  | .null => false
  | .bool b => b
  | .num n => decide (n ≠ 0)
  | .str s => decide (s ≠ "")

/-- `interface NodeInfo` (lines 7-12): one discovered URL with its referrers,
title and optional error description. -/
structure NodeInfo where
  url : String
  refs : List String
  title : String
  error : Option String
  deriving Repr, DecidableEq

/-- `type CheckerOptions` (lines 14-21). `checkExternalLinks` is a raw JS
value so that the `=== true` coercion of the constructor is observable. -/
structure CheckerOptions where
  checkHost : String
  outputHost : Option String
  paths : List String
  blackList : Option (List String)
  checkExternalLinks : JSValue
  sitemapPath : Option String
  deriving Repr, DecidableEq

/-- The configuration fields of class `Checker` (lines 26-30). -/
structure Checker where
  checkHost : String
  outputHost : String
  checkExternalLinks : Bool
  sitemapPath : Option String
  blackList : List String
  deriving Repr, DecidableEq

/-- The `Checker` constructor (lines 45-62): `outputHost` defaults to
`checkHost` when undefined, `checkExternalLinks` is `options.checkExternalLinks
=== true`, `sitemapPath` must be a string, `blackList` defaults to `[]`. -/
def mkChecker (options : CheckerOptions) : Checker :=
  { checkHost := options.checkHost
    outputHost :=
      match options.outputHost with
      | none => options.checkHost
      | some h => h
    checkExternalLinks := options.checkExternalLinks == JSValue.bool true
    sitemapPath := options.sitemapPath
    blackList := options.blackList.getD [] }

/-- The mutable crawl state of a `Checker` (lines 32-38).  `nodes` is the
store of every `NodeInfo` object ever created, in creation order; an index
into it plays the role of a JS object reference. -/
structure CheckerState where
  nodes : List NodeInfo
  allNodes : List (String × Nat)
  finishedOurNodes : List Nat
  errorNodes : List Nat
  targetNodes : List Nat
  deriving Repr, DecidableEq

def initState : CheckerState :=
  { nodes := [], allNodes := [], finishedOurNodes := [], errorNodes := [],
    targetNodes := [] }

/-- The default `NodeInfo` used to totalise store lookups. -/
def dummyNode : NodeInfo := { url := "", refs := [], title := "", error := none }

/-- Dereference a node id in the store. -/
def getNode (s : CheckerState) (i : Nat) : NodeInfo := s.nodes.getD i dummyNode

/-- Mutate the node object with id `i` in place. -/
def setNode (s : CheckerState) (i : Nat) (n : NodeInfo) : CheckerState :=
  { s with nodes := s.nodes.set i n }

/-- JS `Map.get`. -/
def mapGet (m : List (String × Nat)) (k : String) : Option Nat :=
  match m.find? (fun p => p.1 == k) with
  | some p => some p.2
  | none => none

/-- JS `Map.set`: replace the binding in place if the key exists, otherwise
append a new binding (JS `Map`s iterate in key-insertion order). -/
def mapSet (m : List (String × Nat)) (k : String) (v : Nat) : List (String × Nat) :=
  if (m.find? (fun p => p.1 == k)).isSome then
    m.map (fun p => if p.1 == k then (k, v) else p)
  else
    m ++ [(k, v)]

/-- The key set of the registry, in insertion order. -/
def keysOf (m : List (String × Nat)) : List String := m.map Prod.fst

/-- JS `Set.add` on object identities: append unless already present. -/
def setAdd (s : List Nat) (x : Nat) : List Nat := if x ∈ s then s else s ++ [x]

/-- Seed registration (lines 73-81): unconditionally build a fresh `NodeInfo`
object with empty referrers, store it in `allNodes` under its URL (overwriting
any existing binding) and add it to the frontier. -/
def registerSeed (s : CheckerState) (path : String) : CheckerState :=
  let newId := s.nodes.length
  let newNode : NodeInfo := { url := path, refs := [], title := "", error := none }
  { s with
    nodes := s.nodes ++ [newNode]
    allNodes := mapSet s.allNodes path newId
    targetNodes := setAdd s.targetNodes newId }

def registerSeeds (s : CheckerState) (paths : List String) : CheckerState :=
  paths.foldl registerSeed s

/-- JS `String.prototype.startsWith`: prefix test on the character
sequences.  (Defined over `String.data` so that proofs can evaluate it.) -/
def jsStartsWith (s p : String) : Bool := p.data.isPrefixOf s.data

/-- JS `String.prototype.substr(n)`: the characters from index `n` on. -/
def jsSubstrFrom (s : String) (n : Nat) : String := ⟨s.data.drop n⟩

/-- Lexicographic (code-point) comparison of character sequences: the model
of the `localeCompare`-based ascending sorts. -/
def strLeB : List Char → List Char → Bool
  | [], _ => true
  | _ :: _, [] => false
  | a :: as, b :: bs =>
    if a < b then true
    else if b < a then false
    else strLeB as bs

/-- Lexicographic comparison of strings (see `jsLe_iff`: it agrees with the
linear order `≤` on `String`). -/
def jsLe (a b : String) : Bool := strLeB a.data b.data

/-- URL resolution (lines 107-110): a URL with a recognised scheme is the
fetch target verbatim, anything else gets the check host prepended. -/
def toCheckUrl (checkHost rawUrl : String) : String :=
  if jsStartsWith rawUrl "http://" || jsStartsWith rawUrl "https://" then rawUrl
  else checkHost ++ rawUrl

/-- Link-key normalisation (lines 156-161): strip the check-host prefix if
present, otherwise keep the target as-is. -/
def stripHref (checkHost href : String) : String :=
  if jsStartsWith href checkHost then jsSubstrFrom href checkHost.length
  else href

/-- Outcome of one `page.goto` + `page.title()` + `page.$$("a")` round trip,
the opaque puppeteer collaborator.  `throws msg` is a raised navigation
failure with `msg` its `toString()`; `ok res title links` is a completed
navigation, where `res = none` models `goto` returning `null`. -/
inductive FetchResult where
  | throws (msg : String)
  | ok (res : Option Int) (title : String) (links : List String)
  deriving Repr, DecidableEq

/-- The anchor hrefs the renderer would report for a fetch outcome. -/
def linksOf : FetchResult → List String
  | .throws _ => []
  | .ok _ _ links => links

/-- ECMA-262 `Error.prototype.toString()` for `new Error(msg)`. -/
def errorToString (msg : String) : String := "Error: " ++ msg

/-- One iteration of the link loop (lines 153-174) for a single href:
normalise the key, create a pending node when the key is unknown, otherwise
add the referrer unless already recorded. -/
def processLink (c : Checker) (fromUrl : String) (s : CheckerState)
    (href : String) : CheckerState :=
  match mapGet s.allNodes (stripHref c.checkHost href) with
  | none =>
    { s with
      nodes := s.nodes ++ [{ url := stripHref c.checkHost href,
                             refs := [fromUrl], title := "", error := none }]
      allNodes := mapSet s.allNodes (stripHref c.checkHost href) s.nodes.length
      targetNodes := setAdd s.targetNodes s.nodes.length }
  | some rid =>
    if fromUrl ∈ (getNode s rid).refs then s
    else setNode s rid
      { getNode s rid with refs := (getNode s rid).refs ++ [fromUrl] }

/-- Record the node's error and add it to `errorNodes` (lines 141-142). -/
def markErrored (s : CheckerState) (id : Nat) (msg : String) : CheckerState :=
  let s1 := setNode s id { getNode s id with error := some msg }
  { s1 with errorNodes := setAdd s1.errorNodes id }

/-- Successful-fetch tail of `checkPage` (lines 137, 146-174): record the
title; stop if external; otherwise mark finished and run the link loop. -/
def checkPageSuccess (c : Checker) (s : CheckerState) (id : Nat)
    (isExternalLink : Bool) (rawUrl title : String) (links : List String) :
    CheckerState :=
  let s1 := setNode s id { getNode s id with title := title }
  if isExternalLink then s1
  else
    let s2 := { s1 with finishedOurNodes := setAdd s1.finishedOurNodes id }
    links.foldl (processLink c rawUrl) s2

/-- Outcome dispatch of `checkPage` (lines 119-144): a raised navigation
failure is recorded; a response with status outside `[200, 400)` raises
`new Error("Status: <code>")` which is caught and recorded via its
`toString()`; a `null` response or an in-range status proceeds as success. -/
def handleFetch (c : Checker) (s : CheckerState) (id : Nat)
    (isExternalLink : Bool) (rawUrl : String) : FetchResult → CheckerState
  | .throws msg => markErrored s id msg
  | .ok res title links =>
    match res with
    | some status =>
      if status < 200 || 400 ≤ status then
        markErrored s id (errorToString ("Status: " ++ toString status))
      else checkPageSuccess c s id isExternalLink rawUrl title links
    | none => checkPageSuccess c s id isExternalLink rawUrl title links

/-- `checkPage` (lines 105-175): resolve the fetch target, classify it,
skip external targets when external checking is disabled, otherwise fetch
and dispatch on the outcome. -/
def checkPage (c : Checker) (fetch : String → FetchResult) (s : CheckerState)
    (id : Nat) : CheckerState :=
  let rawUrl := (getNode s id).url
  let checkUrl := toCheckUrl c.checkHost rawUrl
  let isExternalLink := !(jsStartsWith checkUrl c.checkHost)
  if isExternalLink && !c.checkExternalLinks then s
  else handleFetch c s id isExternalLink rawUrl (fetch checkUrl)

/-- Comparator of the frontier/sitemap sorts (lines 84-86, 186-188):
`localeCompare` on node URLs, modelled as code-point order. -/
def urlLe (s : CheckerState) (a b : Nat) : Bool :=
  jsLe (getNode s a).url (getNode s b).url

/-- The `Array.from(set).sort((a, b) => a.url.localeCompare(b.url))` idiom
(lines 84-86, 186-188): a stable sort of the ids by node URL.  ECMAScript
`sort` is required to be stable, so any stable sorting algorithm gives the
array the code produces; we use insertion sort. -/
def sortByUrl (s : CheckerState) (l : List Nat) : List Nat :=
  List.insertionSort (fun a b => urlLe s a b = true) l

/-- Frontier pop (lines 83-88): when the frontier is non-empty, sort its
members by URL (stable, as ECMAScript `sort` is) and remove the first. -/
def popNext (s : CheckerState) : Option (Nat × CheckerState) :=
  match sortByUrl s s.targetNodes with
  | [] => none
  | i :: _ => some (i, { s with targetNodes := s.targetNodes.erase i })

/-- The crawl loop (lines 83-89), fuelled: each iteration pops the next
pending node and checks it; the loop ends when the frontier is empty. -/
def runLoop (c : Checker) (fetch : String → FetchResult) :
    Nat → CheckerState → CheckerState
  | 0, s => s
  | fuel + 1, s =>
    match popNext s with
    | none => s
    | some (i, s1) => runLoop c fetch fuel (checkPage c fetch s1 i)

def sitemapHeader : String :=
  "<?xml version=\"1.0\" encoding=\"UTF-8\"?>\n" ++
  "<urlset xmlns=\"http://www.sitemaps.org/schemas/sitemap/0.9\">\n"

def sitemapEntry (outputHost url : String) : String :=
  "  <url>\n    <loc>" ++ outputHost ++ url ++ "</loc>\n  </url>\n"

/-- `writeSitemap` (lines 177-202): no output when `sitemapPath` is `null`;
otherwise sort the finished nodes by URL, skip block-listed URLs, and append
one entry per remaining node.  Returns the document written to the file. -/
def writeSitemap (c : Checker) (s : CheckerState) : Option String :=
  match c.sitemapPath with
  | none => none
  | some _ =>
    let nodes := sortByUrl s s.finishedOurNodes
    let body := nodes.foldl
      (fun acc i =>
        if c.blackList.contains (getNode s i).url then acc
        else acc ++ sitemapEntry c.outputHost (getNode s i).url) ""
    some (sitemapHeader ++ body ++ "</urlset>")

/-- The sitemap body as the spec words it: sort the finished nodes by URL
ascending, filter out block-listed URLs, emit one entry per remaining node
with the output host concatenated to the node's URL. -/
def specSitemapBody (c : Checker) (s : CheckerState) : String :=
  String.join
    (((sortByUrl s s.finishedOurNodes).filter
        (fun i => !(c.blackList.contains (getNode s i).url))).map
      (fun i => sitemapEntry c.outputHost (getNode s i).url))

/-- `runInternal` (lines 72-93): register the seeds, drive the crawl loop to
completion, then write the sitemap. -/
def runInternal (c : Checker) (fetch : String → FetchResult) (fuel : Nat)
    (paths : List String) : CheckerState × Option String :=
  let s := runLoop c fetch fuel (registerSeeds initState paths)
  (s, writeSitemap c s)

/-! ## Crawl-measure definitions used for termination -/

/-- URLs of `U` not yet registered: an upper bound on the node creations
still possible inside the universe `U`. -/
def urlBudget (U : List String) (s : CheckerState) : Nat :=
  (U.filter (fun u => decide (u ∉ keysOf s.allNodes))).length

/-- Decreasing measure of the crawl loop over the URL universe `U`. -/
def crawlMeasure (U : List String) (s : CheckerState) : Nat :=
  urlBudget U s + s.targetNodes.length

/-! ## Concrete fixtures used by witnesses and counterexamples -/

def wChecker : Checker :=
  { checkHost := "http://h", outputHost := "https://o",
    checkExternalLinks := false, sitemapPath := some "build/sitemap.xml",
    blackList := ["/#/"] }

def wCheckerExt : Checker := { wChecker with checkExternalLinks := true }

def wState : CheckerState :=
  { nodes := [{ url := "/", refs := [], title := "Home", error := none },
              { url := "/a", refs := ["/"], title := "A", error := none }],
    allNodes := [("/", 0), ("/a", 1)],
    finishedOurNodes := [1, 0],
    errorNodes := [],
    targetNodes := [0, 1] }

def wPopped : CheckerState := { wState with targetNodes := [1] }

def wOpts : CheckerOptions :=
  { checkHost := "http://h", outputHost := none, paths := ["/"],
    blackList := none, checkExternalLinks := JSValue.undef,
    sitemapPath := none }

/-- A single not-yet-visited internal node `/bad`. -/
def wBadState : CheckerState :=
  { nodes := [{ url := "/bad", refs := [], title := "", error := none }],
    allNodes := [("/bad", 0)], finishedOurNodes := [], errorNodes := [],
    targetNodes := [0] }

/-- A single not-yet-visited external node `http://x/`. -/
def wExtState : CheckerState :=
  { nodes := [{ url := "http://x/", refs := [], title := "", error := none }],
    allNodes := [("http://x/", 0)], finishedOurNodes := [], errorNodes := [],
    targetNodes := [0] }

/-- A single not-yet-visited internal node `/`. -/
def wOneState : CheckerState :=
  { nodes := [{ url := "/", refs := [], title := "", error := none }],
    allNodes := [("/", 0)], finishedOurNodes := [], errorNodes := [],
    targetNodes := [0] }

def wFetch404 : String → FetchResult := fun _ => FetchResult.ok (some 404) "" []

def wFetchA : String → FetchResult :=
  fun _ => FetchResult.ok (some 200) "T" ["http://h/p"]

def wFetchB : String → FetchResult := fun _ => FetchResult.ok (some 200) "T" []

def wFetchNone : String → FetchResult :=
  fun _ => FetchResult.ok none "Home" ["http://h/a"]

/-- A two-page site: `/` links to `/a` and to an external page. -/
def wSiteFetch : String → FetchResult := fun u =>
  if u = "http://h/" then FetchResult.ok (some 200) "Home" ["http://h/a", "http://x/"]
  else FetchResult.ok (some 200) "A" []

/-- A closed URL universe for `wSiteFetch` crawls seeded at `/`. -/
def wUniverse : List String := ["/", "/a", "http://x/"]

/-! ## Basic lemmas about the embedded primitives -/

theorem getNode_setNode_self {s : CheckerState} {i : Nat} (n : NodeInfo)
    (h : i < s.nodes.length) : getNode (setNode s i n) i = n := by
  simp [getNode, setNode, List.getD_eq_getElem?_getD, List.getElem?_set_self h]

theorem getNode_setNode_ne {s : CheckerState} {i j : Nat} (n : NodeInfo)
    (h : i ≠ j) : getNode (setNode s i n) j = getNode s j := by
  simp [getNode, setNode, List.getD_eq_getElem?_getD, List.getElem?_set_ne h]

theorem strLeB_iff :
    ∀ as bs : List Char, strLeB as bs = true ↔ ¬ List.Lex (· < ·) bs as := by
  intro as
  induction as with
  | nil =>
    intro bs
    simp [strLeB]
  | cons a as ih =>
    intro bs
    cases bs with
    | nil =>
      simp only [strLeB, Bool.false_eq_true, false_iff]
      exact fun h => h List.Lex.nil
    | cons b bs =>
      simp only [strLeB]
      rcases lt_trichotomy a b with h | h | h
      · rw [if_pos h]
        simp only [true_iff]
        intro hlex
        cases hlex with
        | cons h' => exact lt_irrefl a h
        | rel h' => exact lt_asymm h h'
      · subst h
        rw [if_neg (lt_irrefl a), if_neg (lt_irrefl a), ih bs]
        constructor
        · intro hn hlex
          exact hn (List.Lex.cons_iff.mp hlex)
        · intro hn hlex
          exact hn (List.Lex.cons hlex)
      · rw [if_neg (lt_asymm h), if_pos h]
        simp only [Bool.false_eq_true, false_iff, not_not]
        exact List.Lex.rel h

/-- `jsLe` agrees with the lexicographic linear order on `String`. -/
theorem jsLe_iff (a b : String) : jsLe a b = true ↔ a ≤ b := by
  rw [jsLe, strLeB_iff]
  constructor
  · intro hn hba
    exact hn (String.lt_iff_toList_lt.mp hba)
  · intro hle hlex
    exact hle (String.lt_iff_toList_lt.mpr hlex)

theorem urlLe_trans (s : CheckerState) :
    ∀ a b c, urlLe s a b → urlLe s b c → urlLe s a c := by
  intro a b c hab hbc
  simp only [urlLe, jsLe_iff] at *
  exact le_trans hab hbc

theorem urlLe_total (s : CheckerState) : ∀ a b, urlLe s a b || urlLe s b a := by
  intro a b
  rcases le_total (getNode s a).url (getNode s b).url with h | h
  · have : urlLe s a b = true := by rw [urlLe, jsLe_iff]; exact h
    simp [this]
  · have : urlLe s b a = true := by rw [urlLe, jsLe_iff]; exact h
    simp [this]

theorem sortByUrl_perm (s : CheckerState) (l : List Nat) :
    List.Perm (sortByUrl s l) l :=
  List.perm_insertionSort _ l

theorem sortByUrl_sorted (s : CheckerState) (l : List Nat) :
    List.Sorted (fun a b => urlLe s a b = true) (sortByUrl s l) := by
  haveI : IsTotal Nat (fun a b => urlLe s a b = true) :=
    ⟨fun a b => by
      have := urlLe_total s a b
      rcases Bool.or_eq_true_iff.mp this with h | h
      · exact Or.inl h
      · exact Or.inr h⟩
  haveI : IsTrans Nat (fun a b => urlLe s a b = true) :=
    ⟨fun a b c => urlLe_trans s a b c⟩
  exact List.sorted_insertionSort _ l

theorem popNext_eq_none_iff {s : CheckerState} :
    popNext s = none ↔ s.targetNodes = [] := by
  have hp := sortByUrl_perm s s.targetNodes
  unfold popNext
  cases hm : sortByUrl s s.targetNodes with
  | nil =>
    rw [hm] at hp
    simp [hp.symm.eq_nil]
  | cons a t =>
    rw [hm] at hp
    have hne : s.targetNodes ≠ [] := by
      intro h
      rw [h] at hp
      exact (List.not_mem_nil a) (hp.mem_iff.mp (by simp))
    simp [hne]

theorem popNext_eq_some {s : CheckerState} {i : Nat} {s' : CheckerState}
    (h : popNext s = some (i, s')) :
    i ∈ s.targetNodes ∧
    (∀ j ∈ s.targetNodes, (getNode s i).url ≤ (getNode s j).url) ∧
    s' = { s with targetNodes := s.targetNodes.erase i } := by
  unfold popNext at h
  cases hm : sortByUrl s s.targetNodes with
  | nil => rw [hm] at h; cases h
  | cons a t =>
    rw [hm] at h
    simp only [Option.some.injEq, Prod.mk.injEq] at h
    obtain ⟨rfl, rfl⟩ := h
    have hperm := sortByUrl_perm s s.targetNodes
    rw [hm] at hperm
    refine ⟨?_, ?_, rfl⟩
    · exact hperm.mem_iff.mp (by simp)
    · intro j hj
      have hj' : j ∈ a :: t := hperm.mem_iff.mpr hj
      rcases List.mem_cons.mp hj' with rfl | hj'
      · exact le_refl _
      · have hsorted := sortByUrl_sorted s s.targetNodes
        rw [hm] at hsorted
        have := (List.pairwise_cons.mp hsorted).1 j hj'
        exact (jsLe_iff _ _).mp (by simpa [urlLe] using this)

theorem string_foldl_append (l : List String) :
    ∀ acc : String, l.foldl (· ++ ·) acc = acc ++ l.foldl (· ++ ·) "" := by
  induction l with
  | nil => intro acc; simp
  | cons a t ih =>
    intro acc
    simp only [List.foldl_cons]
    rw [ih (acc ++ a), ih ("" ++ a), String.append_assoc]
    simp

theorem string_join_cons (a : String) (l : List String) :
    String.join (a :: l) = a ++ String.join l := by
  simp only [String.join, List.foldl_cons]
  rw [string_foldl_append l ("" ++ a)]
  simp

theorem foldl_sitemap_body (bad : Nat → Bool) (g : Nat → String) :
    ∀ (l : List Nat) (acc : String),
      l.foldl (fun a i => if bad i then a else a ++ g i) acc
        = acc ++ String.join ((l.filter (fun i => !bad i)).map g) := by
  intro l
  induction l with
  | nil => intro acc; simp [String.join]
  | cons i t ih =>
    intro acc
    simp only [List.foldl_cons, List.filter_cons]
    by_cases hb : bad i
    · rw [if_pos hb, ih acc]
      have hnb : (!bad i) = false := by simp [hb]
      simp [hnb]
    · rw [if_neg hb, ih (acc ++ g i)]
      have hnb : (!bad i) = true := by simp [hb]
      simp [hnb, string_join_cons, String.append_assoc]

/-! ## Lemmas about `checkPage` and its pieces -/

theorem checkPage_skip {c : Checker} (fetch : String → FetchResult)
    {s : CheckerState} {id : Nat}
    (hext : jsStartsWith (toCheckUrl c.checkHost (getNode s id).url) c.checkHost
      = false)
    (hdis : c.checkExternalLinks = false) :
    checkPage c fetch s id = s := by
  simp [checkPage, hext, hdis]

theorem checkPage_eq_handleFetch {c : Checker} (fetch : String → FetchResult)
    {s : CheckerState} {id : Nat}
    (hproc : ((!(jsStartsWith (toCheckUrl c.checkHost (getNode s id).url)
        c.checkHost)) && !c.checkExternalLinks) = false) :
    checkPage c fetch s id
      = handleFetch c s id
          (!(jsStartsWith (toCheckUrl c.checkHost (getNode s id).url) c.checkHost))
          (getNode s id).url
          (fetch (toCheckUrl c.checkHost (getNode s id).url)) := by
  simp only [checkPage, hproc]
  simp

theorem markErrored_targetNodes (s : CheckerState) (id : Nat) (msg : String) :
    (markErrored s id msg).targetNodes = s.targetNodes := rfl

theorem markErrored_allNodes (s : CheckerState) (id : Nat) (msg : String) :
    (markErrored s id msg).allNodes = s.allNodes := rfl

theorem markErrored_finished (s : CheckerState) (id : Nat) (msg : String) :
    (markErrored s id msg).finishedOurNodes = s.finishedOurNodes := rfl

theorem markErrored_errorNodes (s : CheckerState) (id : Nat) (msg : String) :
    (markErrored s id msg).errorNodes = setAdd s.errorNodes id := rfl

theorem markErrored_error {s : CheckerState} {id : Nat} (msg : String)
    (hid : id < s.nodes.length) :
    (getNode (markErrored s id msg) id).error = some msg := by
  have : getNode (markErrored s id msg) id
      = { getNode s id with error := some msg } := by
    exact getNode_setNode_self _ hid
  rw [this]

theorem markErrored_getNode_ne {s : CheckerState} {id j : Nat} (msg : String)
    (hj : j ≠ id) :
    getNode (markErrored s id msg) j = getNode s j :=
  getNode_setNode_ne _ (Ne.symm hj)

theorem checkPageSuccess_external (c : Checker) (s : CheckerState) (id : Nat)
    (rawUrl title : String) (links : List String) :
    checkPageSuccess c s id true rawUrl title links
      = setNode s id { getNode s id with title := title } := by
  simp [checkPageSuccess]

theorem checkPageSuccess_internal (c : Checker) (s : CheckerState) (id : Nat)
    (rawUrl title : String) (links : List String) :
    checkPageSuccess c s id false rawUrl title links
      = links.foldl (processLink c rawUrl)
          { setNode s id { getNode s id with title := title } with
            finishedOurNodes := setAdd s.finishedOurNodes id } := rfl

theorem mapGet_eq_none_iff {m : List (String × Nat)} {k : String} :
    mapGet m k = none ↔ k ∉ keysOf m := by
  unfold mapGet keysOf
  cases hf : m.find? (fun p => p.1 == k) with
  | some p =>
    simp only [reduceCtorEq, false_iff, not_not]
    have hp := List.find?_some hf
    have hmem := List.mem_of_find?_eq_some hf
    simp only [beq_iff_eq] at hp
    exact List.mem_map.mpr ⟨p, hmem, hp⟩
  | none =>
    simp only [true_iff]
    rw [List.find?_eq_none] at hf
    intro hk
    obtain ⟨p, hpm, hpk⟩ := List.mem_map.mp hk
    exact hf p hpm (by simp [hpk])

theorem mapGet_isSome_iff {m : List (String × Nat)} {k : String} :
    (mapGet m k).isSome = true ↔ k ∈ keysOf m := by
  cases hm : mapGet m k with
  | none =>
    simp only [Option.isSome_none, Bool.false_eq_true, false_iff]
    exact mapGet_eq_none_iff.mp hm
  | some v =>
    simp only [Option.isSome_some, true_iff]
    by_contra hk
    exact absurd (mapGet_eq_none_iff.mpr hk) (by simp [hm])

theorem keysOf_mapSet (m : List (String × Nat)) (k : String) (v : Nat) :
    keysOf (mapSet m k v)
      = if k ∈ keysOf m then keysOf m else keysOf m ++ [k] := by
  unfold mapSet
  by_cases h : k ∈ keysOf m
  · have hs : (m.find? (fun p => p.1 == k)).isSome := by
      rw [List.find?_isSome]
      obtain ⟨p, hpm, hpk⟩ := List.mem_map.mp h
      exact ⟨p, hpm, by simp [hpk]⟩
    rw [if_pos hs, if_pos h]
    unfold keysOf
    rw [List.map_map]
    apply List.map_congr_left
    intro p _
    by_cases hpk : p.1 = k
    · simp [hpk]
    · simp [hpk]
  · have hs : ¬ (m.find? (fun p => p.1 == k)).isSome := by
      rw [List.find?_isSome]
      rintro ⟨p, hpm, hpk⟩
      simp only [beq_iff_eq] at hpk
      exact h (List.mem_map.mpr ⟨p, hpm, hpk⟩)
    rw [if_neg hs, if_neg h]
    unfold keysOf
    simp

/-! ### Shapes of the two `processLink` branches -/

theorem processLink_none_eq (c : Checker) (fu : String) (s : CheckerState)
    (href : String)
    (hm : mapGet s.allNodes (stripHref c.checkHost href) = none) :
    processLink c fu s href
      = { s with
          nodes := s.nodes ++ [{ url := stripHref c.checkHost href,
                                 refs := [fu], title := "", error := none }]
          allNodes := mapSet s.allNodes (stripHref c.checkHost href)
            s.nodes.length
          targetNodes := setAdd s.targetNodes s.nodes.length } := by
  unfold processLink
  rw [hm]

theorem processLink_noop_eq (c : Checker) (fu : String) (s : CheckerState)
    (href : String) (rid : Nat)
    (hm : mapGet s.allNodes (stripHref c.checkHost href) = some rid)
    (h : fu ∈ (getNode s rid).refs) :
    processLink c fu s href = s := by
  unfold processLink
  rw [hm]
  simp [h]

theorem processLink_push_eq (c : Checker) (fu : String) (s : CheckerState)
    (href : String) (rid : Nat)
    (hm : mapGet s.allNodes (stripHref c.checkHost href) = some rid)
    (h : fu ∉ (getNode s rid).refs) :
    processLink c fu s href
      = setNode s rid
          { getNode s rid with refs := (getNode s rid).refs ++ [fu] } := by
  unfold processLink
  rw [hm]
  simp [h]

/-! ### Field preservation through the link loop -/

theorem processLink_finished (c : Checker) (fu : String) (s : CheckerState)
    (href : String) :
    (processLink c fu s href).finishedOurNodes = s.finishedOurNodes := by
  cases hm : mapGet s.allNodes (stripHref c.checkHost href) with
  | none => rw [processLink_none_eq c fu s href hm]
  | some rid =>
    by_cases h : fu ∈ (getNode s rid).refs
    · rw [processLink_noop_eq c fu s href rid hm h]
    · rw [processLink_push_eq c fu s href rid hm h]
      rfl

theorem processLink_errorNodes (c : Checker) (fu : String) (s : CheckerState)
    (href : String) :
    (processLink c fu s href).errorNodes = s.errorNodes := by
  cases hm : mapGet s.allNodes (stripHref c.checkHost href) with
  | none => rw [processLink_none_eq c fu s href hm]
  | some rid =>
    by_cases h : fu ∈ (getNode s rid).refs
    · rw [processLink_noop_eq c fu s href rid hm h]
    · rw [processLink_push_eq c fu s href rid hm h]
      rfl

theorem getNode_append_lt {s : CheckerState} {j : Nat} (n : NodeInfo)
    (hj : j < s.nodes.length) (an : List (String × Nat)) (tg : List Nat) :
    getNode
      { s with
        nodes := s.nodes ++ [n]
        allNodes := an
        targetNodes := tg } j
      = getNode s j := by
  simp [getNode, List.getD_eq_getElem?_getD, List.getElem?_append_left hj]

theorem getNode_oob {s : CheckerState} {j : Nat} (hj : s.nodes.length ≤ j) :
    getNode s j = dummyNode := by
  simp [getNode, List.getD_eq_getElem?_getD, List.getElem?_eq_none hj]

theorem getNode_append_self {s : CheckerState} (n : NodeInfo)
    (an : List (String × Nat)) (tg : List Nat) :
    getNode
      { s with
        nodes := s.nodes ++ [n]
        allNodes := an
        targetNodes := tg } s.nodes.length
      = n := by
  simp [getNode, List.getD_eq_getElem?_getD, List.getElem?_concat_length]

theorem getNode_append_gt {s : CheckerState} {j : Nat} (n : NodeInfo)
    (hj : s.nodes.length < j) (an : List (String × Nat)) (tg : List Nat) :
    getNode
      { s with
        nodes := s.nodes ++ [n]
        allNodes := an
        targetNodes := tg } j
      = dummyNode := by
  apply getNode_oob
  simp only [List.length_append, List.length_cons, List.length_nil]
  omega

theorem setNode_oob {s : CheckerState} {i : Nat} (n : NodeInfo)
    (hi : s.nodes.length ≤ i) : setNode s i n = s := by
  simp [setNode, List.set_eq_of_length_le hi]

/-- The link loop never changes the `error` or `title` field of any node
object: it only creates fresh nodes (whose `error` and `title` agree with
the out-of-range default) and pushes referrers. -/
theorem processLink_error_title (c : Checker) (fu : String) (s : CheckerState)
    (href : String) (j : Nat) :
    (getNode (processLink c fu s href) j).error = (getNode s j).error ∧
    (getNode (processLink c fu s href) j).title = (getNode s j).title := by
  cases hm : mapGet s.allNodes (stripHref c.checkHost href) with
  | none =>
    rw [processLink_none_eq c fu s href hm]
    rcases lt_or_ge j s.nodes.length with hj | hj
    · rw [getNode_append_lt _ hj]
      exact ⟨rfl, rfl⟩
    · rcases eq_or_lt_of_le hj with hj' | hj'
      · subst hj'
        rw [getNode_append_self, getNode_oob (le_refl _)]
        exact ⟨rfl, rfl⟩
      · rw [getNode_append_gt _ hj', getNode_oob hj]
        exact ⟨rfl, rfl⟩
  | some rid =>
    by_cases h : fu ∈ (getNode s rid).refs
    · rw [processLink_noop_eq c fu s href rid hm h]
      exact ⟨rfl, rfl⟩
    · rw [processLink_push_eq c fu s href rid hm h]
      rcases lt_or_ge rid s.nodes.length with hrid | hrid
      · rcases eq_or_ne j rid with rfl | hne
        · rw [getNode_setNode_self _ hrid]
          exact ⟨rfl, rfl⟩
        · rw [getNode_setNode_ne _ (Ne.symm hne)]
          exact ⟨rfl, rfl⟩
      · rw [setNode_oob _ hrid]
        exact ⟨rfl, rfl⟩

/-! ### The link loop as a whole -/

theorem foldl_processLink_finished (c : Checker) (fu : String) :
    ∀ (links : List String) (s : CheckerState),
      (links.foldl (processLink c fu) s).finishedOurNodes
        = s.finishedOurNodes := by
  intro links
  induction links with
  | nil => intro s; rfl
  | cons l ls ih =>
    intro s
    rw [List.foldl_cons, ih, processLink_finished]

theorem foldl_processLink_errorNodes (c : Checker) (fu : String) :
    ∀ (links : List String) (s : CheckerState),
      (links.foldl (processLink c fu) s).errorNodes = s.errorNodes := by
  intro links
  induction links with
  | nil => intro s; rfl
  | cons l ls ih =>
    intro s
    rw [List.foldl_cons, ih, processLink_errorNodes]

theorem foldl_processLink_error_title (c : Checker) (fu : String) :
    ∀ (links : List String) (s : CheckerState) (j : Nat),
      (getNode (links.foldl (processLink c fu) s) j).error
          = (getNode s j).error ∧
      (getNode (links.foldl (processLink c fu) s) j).title
          = (getNode s j).title := by
  intro links
  induction links with
  | nil => intro s j; exact ⟨rfl, rfl⟩
  | cons l ls ih =>
    intro s j
    rw [List.foldl_cons]
    obtain ⟨he, ht⟩ := ih (processLink c fu s l) j
    obtain ⟨he', ht'⟩ := processLink_error_title c fu s l j
    exact ⟨he.trans he', ht.trans ht'⟩

theorem mem_setAdd_self (l : List Nat) (x : Nat) : x ∈ setAdd l x := by
  unfold setAdd
  by_cases h : x ∈ l
  · simp [h]
  · simp [h]

/-! ### Registry keys only grow during the link loop -/

theorem processLink_key_present (c : Checker) (fu : String) (s : CheckerState)
    (href : String) :
    (mapGet (processLink c fu s href).allNodes
      (stripHref c.checkHost href)).isSome = true := by
  cases hm : mapGet s.allNodes (stripHref c.checkHost href) with
  | none =>
    rw [processLink_none_eq c fu s href hm]
    rw [mapGet_isSome_iff]
    show stripHref c.checkHost href ∈ keysOf (mapSet s.allNodes _ _)
    rw [keysOf_mapSet]
    rw [if_neg (mapGet_eq_none_iff.mp hm)]
    simp
  | some rid =>
    by_cases h : fu ∈ (getNode s rid).refs
    · rw [processLink_noop_eq c fu s href rid hm h, hm]
      rfl
    · rw [processLink_push_eq c fu s href rid hm h]
      show (mapGet s.allNodes (stripHref c.checkHost href)).isSome = true
      rw [hm]
      rfl

theorem processLink_key_mono (c : Checker) (fu : String) (s : CheckerState)
    (href k : String)
    (hk : (mapGet s.allNodes k).isSome = true) :
    (mapGet (processLink c fu s href).allNodes k).isSome = true := by
  cases hm : mapGet s.allNodes (stripHref c.checkHost href) with
  | none =>
    rw [processLink_none_eq c fu s href hm]
    rw [mapGet_isSome_iff]
    show k ∈ keysOf (mapSet s.allNodes _ _)
    rw [keysOf_mapSet]
    have := mapGet_isSome_iff.mp hk
    by_cases hmem : stripHref c.checkHost href ∈ keysOf s.allNodes
    · rw [if_pos hmem]; exact this
    · rw [if_neg hmem]; exact List.mem_append_left _ this
  | some rid =>
    by_cases h : fu ∈ (getNode s rid).refs
    · rw [processLink_noop_eq c fu s href rid hm h]
      exact hk
    · rw [processLink_push_eq c fu s href rid hm h]
      exact hk

theorem foldl_processLink_key_mono (c : Checker) (fu : String) :
    ∀ (links : List String) (s : CheckerState) (k : String),
      (mapGet s.allNodes k).isSome = true →
      (mapGet ((links.foldl (processLink c fu) s)).allNodes k).isSome = true := by
  intro links
  induction links with
  | nil => intro s k hk; exact hk
  | cons l ls ih =>
    intro s k hk
    rw [List.foldl_cons]
    exact ih _ k (processLink_key_mono c fu s l k hk)

theorem foldl_processLink_keys (c : Checker) (fu : String) :
    ∀ (links : List String) (s : CheckerState) (h : String), h ∈ links →
      (mapGet ((links.foldl (processLink c fu) s)).allNodes
        (stripHref c.checkHost h)).isSome = true := by
  intro links
  induction links with
  | nil => intro s h hh; cases hh
  | cons l ls ih =>
    intro s h hh
    rw [List.foldl_cons]
    rcases List.mem_cons.mp hh with rfl | hh
    · exact foldl_processLink_key_mono c fu ls _ _
        (processLink_key_present c fu s h)
    · exact ih _ h hh

/-! ### Dispatch of `handleFetch` -/

theorem handleFetch_throws (c : Checker) (s : CheckerState) (id : Nat)
    (ext : Bool) (raw msg : String) :
    handleFetch c s id ext raw (FetchResult.throws msg)
      = markErrored s id msg := rfl

theorem handleFetch_none (c : Checker) (s : CheckerState) (id : Nat)
    (ext : Bool) (raw title : String) (links : List String) :
    handleFetch c s id ext raw (FetchResult.ok none title links)
      = checkPageSuccess c s id ext raw title links := rfl

theorem handleFetch_bad_status (c : Checker) (s : CheckerState) (id : Nat)
    (ext : Bool) (raw : String) (status : Int) (title : String)
    (links : List String) (hrange : status < 200 ∨ 400 ≤ status) :
    handleFetch c s id ext raw (FetchResult.ok (some status) title links)
      = markErrored s id (errorToString ("Status: " ++ toString status)) := by
  unfold handleFetch
  have hcond : (decide (status < 200) || decide (400 ≤ status)) = true := by
    rcases hrange with h | h <;> simp [h]
  simp [hcond]

theorem handleFetch_good_status (c : Checker) (s : CheckerState) (id : Nat)
    (ext : Bool) (raw : String) (status : Int) (title : String)
    (links : List String) (hlo : 200 ≤ status) (hhi : status < 400) :
    handleFetch c s id ext raw (FetchResult.ok (some status) title links)
      = checkPageSuccess c s id ext raw title links := by
  unfold handleFetch
  have h1 : ¬ status < 200 := not_lt.mpr hlo
  have h2 : ¬ 400 ≤ status := not_le.mpr hhi
  simp [h1, h2]

theorem getNode_set_finished (s : CheckerState) (v : List Nat) (j : Nat) :
    getNode { s with finishedOurNodes := v } j = getNode s j := rfl

theorem runLoop_zero (c : Checker) (fetch : String → FetchResult)
    (s : CheckerState) : runLoop c fetch 0 s = s := rfl

theorem runLoop_succ (c : Checker) (fetch : String → FetchResult) (f : Nat)
    (s : CheckerState) :
    runLoop c fetch (f + 1) s
      = match popNext s with
        | none => s
        | some (i, s1) => runLoop c fetch f (checkPage c fetch s1 i) := rfl

/-! ### No duplicate referrers: preservation chain -/

theorem getNode_mem {s : CheckerState} {i : Nat} (hi : i < s.nodes.length) :
    getNode s i ∈ s.nodes := by
  have : getNode s i = s.nodes[i] := by
    simp [getNode, List.getD_eq_getElem?_getD, List.getElem?_eq_getElem hi]
  rw [this]
  exact List.getElem_mem hi

theorem getNode_refs_nodup {s : CheckerState}
    (h : ∀ m ∈ s.nodes, m.refs.Nodup) (i : Nat) :
    (getNode s i).refs.Nodup := by
  rcases lt_or_ge i s.nodes.length with hi | hi
  · exact h _ (getNode_mem hi)
  · rw [getNode_oob hi]
    exact List.nodup_nil

theorem refsNodup_setNode {s : CheckerState} {i : Nat} {n : NodeInfo}
    (hn : n.refs.Nodup) (h : ∀ m ∈ s.nodes, m.refs.Nodup) :
    ∀ m ∈ (setNode s i n).nodes, m.refs.Nodup := by
  intro m hm
  rcases List.mem_or_eq_of_mem_set hm with h1 | h2
  · exact h m h1
  · subst h2
    exact hn

theorem processLink_refs_nodup (c : Checker) (fu : String) (s : CheckerState)
    (href : String) (h : ∀ m ∈ s.nodes, m.refs.Nodup) :
    ∀ m ∈ (processLink c fu s href).nodes, m.refs.Nodup := by
  cases hm : mapGet s.allNodes (stripHref c.checkHost href) with
  | none =>
    rw [processLink_none_eq c fu s href hm]
    intro m hmem
    rcases List.mem_append.mp hmem with h1 | h2
    · exact h m h1
    · rw [List.mem_singleton.mp h2]
      exact List.nodup_singleton fu
  | some rid =>
    by_cases hf : fu ∈ (getNode s rid).refs
    · rw [processLink_noop_eq c fu s href rid hm hf]
      exact h
    · rw [processLink_push_eq c fu s href rid hm hf]
      apply refsNodup_setNode ?_ h
      apply List.Nodup.append (getNode_refs_nodup h rid) (List.nodup_singleton fu)
      intro x hx hx'
      rw [List.mem_singleton.mp hx'] at hx
      exact hf hx

theorem foldl_processLink_refs_nodup (c : Checker) (fu : String) :
    ∀ (links : List String) (s : CheckerState),
      (∀ m ∈ s.nodes, m.refs.Nodup) →
      ∀ m ∈ (links.foldl (processLink c fu) s).nodes, m.refs.Nodup := by
  intro links
  induction links with
  | nil => intro s h; exact h
  | cons l ls ih =>
    intro s h
    rw [List.foldl_cons]
    exact ih _ (processLink_refs_nodup c fu s l h)

theorem registerSeed_refs_nodup (s : CheckerState) (p : String)
    (h : ∀ m ∈ s.nodes, m.refs.Nodup) :
    ∀ m ∈ (registerSeed s p).nodes, m.refs.Nodup := by
  intro m hm
  rcases List.mem_append.mp hm with h1 | h2
  · exact h m h1
  · rw [List.mem_singleton.mp h2]
    exact List.nodup_nil

theorem registerSeeds_refs_nodup :
    ∀ (paths : List String) (s : CheckerState),
      (∀ m ∈ s.nodes, m.refs.Nodup) →
      ∀ m ∈ (registerSeeds s paths).nodes, m.refs.Nodup := by
  intro paths
  induction paths with
  | nil => intro s h; exact h
  | cons p ps ih =>
    intro s h
    exact ih _ (registerSeed_refs_nodup s p h)

theorem markErrored_refs_nodup (s : CheckerState) (id : Nat) (msg : String)
    (h : ∀ m ∈ s.nodes, m.refs.Nodup) :
    ∀ m ∈ (markErrored s id msg).nodes, m.refs.Nodup := by
  have : (markErrored s id msg).nodes
      = (setNode s id { getNode s id with error := some msg }).nodes := rfl
  rw [this]
  exact refsNodup_setNode (getNode_refs_nodup h id) h

theorem checkPageSuccess_refs_nodup (c : Checker) (s : CheckerState)
    (id : Nat) (ext : Bool) (raw title : String) (links : List String)
    (h : ∀ m ∈ s.nodes, m.refs.Nodup) :
    ∀ m ∈ (checkPageSuccess c s id ext raw title links).nodes,
      m.refs.Nodup := by
  cases ext with
  | true =>
    rw [checkPageSuccess_external]
    exact refsNodup_setNode (getNode_refs_nodup h id) h
  | false =>
    rw [checkPageSuccess_internal]
    apply foldl_processLink_refs_nodup
    intro m hm
    have hm' : m ∈ (setNode s id { getNode s id with title := title }).nodes := hm
    exact refsNodup_setNode (by exact getNode_refs_nodup h id) h m hm' 

theorem handleFetch_refs_nodup (c : Checker) (s : CheckerState) (id : Nat)
    (ext : Bool) (raw : String) (fr : FetchResult)
    (h : ∀ m ∈ s.nodes, m.refs.Nodup) :
    ∀ m ∈ (handleFetch c s id ext raw fr).nodes, m.refs.Nodup := by
  cases fr with
  | throws msg =>
    rw [handleFetch_throws]
    exact markErrored_refs_nodup s id msg h
  | ok res title links =>
    cases res with
    | none =>
      rw [handleFetch_none]
      exact checkPageSuccess_refs_nodup c s id ext raw title links h
    | some status =>
      by_cases hbad : status < 200 ∨ 400 ≤ status
      · rw [handleFetch_bad_status c s id ext raw status title links hbad]
        exact markErrored_refs_nodup s id _ h
      · push_neg at hbad
        rw [handleFetch_good_status c s id ext raw status title links
          hbad.1 hbad.2]
        exact checkPageSuccess_refs_nodup c s id ext raw title links h

theorem checkPage_skip_cond (c : Checker) (fetch : String → FetchResult)
    (s : CheckerState) (id : Nat)
    (hskip : ((!(jsStartsWith (toCheckUrl c.checkHost (getNode s id).url)
        c.checkHost)) && !c.checkExternalLinks) = true) :
    checkPage c fetch s id = s := by
  simp [checkPage, hskip]

theorem checkPage_refs_nodup (c : Checker) (fetch : String → FetchResult)
    (s : CheckerState) (id : Nat)
    (h : ∀ m ∈ s.nodes, m.refs.Nodup) :
    ∀ m ∈ (checkPage c fetch s id).nodes, m.refs.Nodup := by
  by_cases hskip : ((!(jsStartsWith (toCheckUrl c.checkHost (getNode s id).url)
      c.checkHost)) && !c.checkExternalLinks) = true
  · rw [checkPage_skip_cond c fetch s id hskip]
    exact h
  · have hproc : ((!(jsStartsWith (toCheckUrl c.checkHost (getNode s id).url)
        c.checkHost)) && !c.checkExternalLinks) = false := by
      rcases Bool.eq_false_or_eq_true ((!(jsStartsWith
        (toCheckUrl c.checkHost (getNode s id).url) c.checkHost))
          && !c.checkExternalLinks) with h1 | h1
      · exact absurd h1 hskip
      · exact h1
    rw [checkPage_eq_handleFetch fetch hproc]
    exact handleFetch_refs_nodup c s id _ _ _ h

theorem runLoop_refs_nodup (c : Checker) (fetch : String → FetchResult) :
    ∀ (fuel : Nat) (s : CheckerState),
      (∀ m ∈ s.nodes, m.refs.Nodup) →
      ∀ m ∈ (runLoop c fetch fuel s).nodes, m.refs.Nodup := by
  intro fuel
  induction fuel with
  | zero => intro s h; exact h
  | succ f ih =>
    intro s h
    rw [runLoop_succ]
    cases hp : popNext s with
    | none => exact h
    | some pair =>
      obtain ⟨i, s1⟩ := pair
      obtain ⟨_, _, hs1⟩ := popNext_eq_some hp
      subst hs1
      exact ih _ (checkPage_refs_nodup c fetch _ i h)

/-! ### Registry keys stay distinct -/

theorem keysNodup_mapSet (m : List (String × Nat)) (k : String) (v : Nat)
    (h : (keysOf m).Nodup) : (keysOf (mapSet m k v)).Nodup := by
  rw [keysOf_mapSet]
  by_cases hk : k ∈ keysOf m
  · rw [if_pos hk]
    exact h
  · rw [if_neg hk]
    apply List.Nodup.append h (List.nodup_singleton k)
    intro x hx hx'
    rw [List.mem_singleton.mp hx'] at hx
    exact hk hx

theorem registerSeed_keys_nodup (s : CheckerState) (p : String)
    (h : (keysOf s.allNodes).Nodup) :
    (keysOf (registerSeed s p).allNodes).Nodup :=
  keysNodup_mapSet s.allNodes p s.nodes.length h

theorem registerSeeds_keys_nodup :
    ∀ (paths : List String) (s : CheckerState),
      (keysOf s.allNodes).Nodup →
      (keysOf (registerSeeds s paths).allNodes).Nodup := by
  intro paths
  induction paths with
  | nil => intro s h; exact h
  | cons p ps ih =>
    intro s h
    exact ih _ (registerSeed_keys_nodup s p h)

theorem processLink_allNodes_of_found (c : Checker) (fu : String)
    (s : CheckerState) (href : String) (rid : Nat)
    (hm : mapGet s.allNodes (stripHref c.checkHost href) = some rid) :
    (processLink c fu s href).allNodes = s.allNodes := by
  by_cases hf : fu ∈ (getNode s rid).refs
  · rw [processLink_noop_eq c fu s href rid hm hf]
  · rw [processLink_push_eq c fu s href rid hm hf]
    rfl

theorem processLink_keys_nodup (c : Checker) (fu : String) (s : CheckerState)
    (href : String) (h : (keysOf s.allNodes).Nodup) :
    (keysOf (processLink c fu s href).allNodes).Nodup := by
  cases hm : mapGet s.allNodes (stripHref c.checkHost href) with
  | none =>
    rw [processLink_none_eq c fu s href hm]
    exact keysNodup_mapSet s.allNodes _ _ h
  | some rid =>
    rw [processLink_allNodes_of_found c fu s href rid hm]
    exact h

theorem foldl_processLink_keys_nodup (c : Checker) (fu : String) :
    ∀ (links : List String) (s : CheckerState),
      (keysOf s.allNodes).Nodup →
      (keysOf ((links.foldl (processLink c fu) s)).allNodes).Nodup := by
  intro links
  induction links with
  | nil => intro s h; exact h
  | cons l ls ih =>
    intro s h
    rw [List.foldl_cons]
    exact ih _ (processLink_keys_nodup c fu s l h)

theorem checkPageSuccess_keys_nodup (c : Checker) (s : CheckerState)
    (id : Nat) (ext : Bool) (raw title : String) (links : List String)
    (h : (keysOf s.allNodes).Nodup) :
    (keysOf (checkPageSuccess c s id ext raw title links).allNodes).Nodup := by
  cases ext with
  | true =>
    rw [checkPageSuccess_external]
    exact h
  | false =>
    rw [checkPageSuccess_internal]
    exact foldl_processLink_keys_nodup c raw links _ h

theorem handleFetch_keys_nodup (c : Checker) (s : CheckerState) (id : Nat)
    (ext : Bool) (raw : String) (fr : FetchResult)
    (h : (keysOf s.allNodes).Nodup) :
    (keysOf (handleFetch c s id ext raw fr).allNodes).Nodup := by
  cases fr with
  | throws msg =>
    rw [handleFetch_throws]
    exact h
  | ok res title links =>
    cases res with
    | none =>
      rw [handleFetch_none]
      exact checkPageSuccess_keys_nodup c s id ext raw title links h
    | some status =>
      by_cases hbad : status < 200 ∨ 400 ≤ status
      · rw [handleFetch_bad_status c s id ext raw status title links hbad]
        exact h
      · push_neg at hbad
        rw [handleFetch_good_status c s id ext raw status title links
          hbad.1 hbad.2]
        exact checkPageSuccess_keys_nodup c s id ext raw title links h

theorem checkPage_keys_nodup (c : Checker) (fetch : String → FetchResult)
    (s : CheckerState) (id : Nat) (h : (keysOf s.allNodes).Nodup) :
    (keysOf (checkPage c fetch s id).allNodes).Nodup := by
  by_cases hskip : ((!(jsStartsWith (toCheckUrl c.checkHost (getNode s id).url)
      c.checkHost)) && !c.checkExternalLinks) = true
  · rw [checkPage_skip_cond c fetch s id hskip]
    exact h
  · have hproc : ((!(jsStartsWith (toCheckUrl c.checkHost (getNode s id).url)
        c.checkHost)) && !c.checkExternalLinks) = false := by
      rcases Bool.eq_false_or_eq_true ((!(jsStartsWith
        (toCheckUrl c.checkHost (getNode s id).url) c.checkHost))
          && !c.checkExternalLinks) with h1 | h1
      · exact absurd h1 hskip
      · exact h1
    rw [checkPage_eq_handleFetch fetch hproc]
    exact handleFetch_keys_nodup c s id _ _ _ h

theorem runLoop_keys_nodup (c : Checker) (fetch : String → FetchResult) :
    ∀ (fuel : Nat) (s : CheckerState),
      (keysOf s.allNodes).Nodup →
      (keysOf (runLoop c fetch fuel s).allNodes).Nodup := by
  intro fuel
  induction fuel with
  | zero => intro s h; exact h
  | succ f ih =>
    intro s h
    rw [runLoop_succ]
    cases hp : popNext s with
    | none => exact h
    | some pair =>
      obtain ⟨i, s1⟩ := pair
      obtain ⟨_, _, hs1⟩ := popNext_eq_some hp
      subst hs1
      exact ih _ (checkPage_keys_nodup c fetch _ i h)

/-! ### Termination: the crawl measure decreases every iteration -/

theorem mem_setAdd {l : List Nat} {x i : Nat} (h : i ∈ setAdd l x) :
    i ∈ l ∨ i = x := by
  unfold setAdd at h
  by_cases hx : x ∈ l
  · rw [if_pos hx] at h
    exact Or.inl h
  · rw [if_neg hx] at h
    rcases List.mem_append.mp h with h1 | h2
    · exact Or.inl h1
    · exact Or.inr (List.mem_singleton.mp h2)

theorem setAdd_of_not_mem {l : List Nat} {x : Nat} (h : x ∉ l) :
    setAdd l x = l ++ [x] := by
  unfold setAdd
  rw [if_neg h]

theorem filter_not_mem_append_lt (U keys : List String) (k : String)
    (hkU : k ∈ U) (hk : k ∉ keys) :
    (U.filter (fun u => decide (u ∉ keys ++ [k]))).length
      < (U.filter (fun u => decide (u ∉ keys))).length := by
  have hsub : List.Sublist (U.filter (fun u => decide (u ∉ keys ++ [k])))
      (U.filter (fun u => decide (u ∉ keys))) := by
    apply List.monotone_filter_right
    intro a ha
    simp only [decide_eq_true_eq] at *
    intro hmem
    exact ha (List.mem_append_left _ hmem)
  rcases lt_or_eq_of_le hsub.length_le with h | h
  · exact h
  · exfalso
    have heq := hsub.eq_of_length h
    have hk1 : k ∈ U.filter (fun u => decide (u ∉ keys)) := by
      rw [List.mem_filter]
      exact ⟨hkU, by simp [hk]⟩
    rw [← heq, List.mem_filter] at hk1
    have hin : k ∈ keys ++ [k] :=
      List.mem_append_right _ (List.mem_singleton.mpr rfl)
    have := hk1.2
    rw [decide_eq_true_eq] at this
    exact this hin

theorem setNode_invT {s : CheckerState} {i : Nat} {n : NodeInfo}
    (hT : ∀ j ∈ s.targetNodes, j < s.nodes.length) :
    ∀ j ∈ (setNode s i n).targetNodes, j < (setNode s i n).nodes.length := by
  intro j hj
  show j < (s.nodes.set i n).length
  rw [List.length_set]
  exact hT j hj

theorem setNode_invU {U : List String} {s : CheckerState} {i : Nat}
    (n : NodeInfo) (hU : ∀ m ∈ s.nodes, m.url ∈ U)
    (hurl : n.url = (getNode s i).url) :
    ∀ m ∈ (setNode s i n).nodes, m.url ∈ U := by
  intro m hm
  have hm' : m ∈ s.nodes.set i n := hm
  rcases lt_or_ge i s.nodes.length with hi | hi
  · rcases List.mem_or_eq_of_mem_set hm' with h1 | h2
    · exact hU m h1
    · subst h2
      rw [hurl]
      exact hU _ (getNode_mem hi)
  · rw [List.set_eq_of_length_le hi] at hm'
    exact hU m hm'

theorem processLink_step (c : Checker) (fu : String) (U : List String)
    (s : CheckerState) (href : String)
    (hT : ∀ i ∈ s.targetNodes, i < s.nodes.length)
    (hU : ∀ n ∈ s.nodes, n.url ∈ U)
    (hmem : stripHref c.checkHost href ∈ U) :
    (∀ i ∈ (processLink c fu s href).targetNodes,
        i < (processLink c fu s href).nodes.length) ∧
    (∀ n ∈ (processLink c fu s href).nodes, n.url ∈ U) ∧
    crawlMeasure U (processLink c fu s href) ≤ crawlMeasure U s := by
  cases hm : mapGet s.allNodes (stripHref c.checkHost href) with
  | some rid =>
    by_cases hf : fu ∈ (getNode s rid).refs
    · rw [processLink_noop_eq c fu s href rid hm hf]
      exact ⟨hT, hU, le_refl _⟩
    · rw [processLink_push_eq c fu s href rid hm hf]
      exact ⟨setNode_invT hT, setNode_invU
        { getNode s rid with refs := (getNode s rid).refs ++ [fu] } hU rfl,
        le_refl _⟩
  | none =>
    rw [processLink_none_eq c fu s href hm]
    have hkey : stripHref c.checkHost href ∉ keysOf s.allNodes :=
      mapGet_eq_none_iff.mp hm
    have hnew : s.nodes.length ∉ s.targetNodes := fun hmem' =>
      lt_irrefl _ (hT _ hmem')
    refine ⟨?_, ?_, ?_⟩
    · intro i hi
      have hi' : i ∈ setAdd s.targetNodes s.nodes.length := hi
      show i < (s.nodes
        ++ [(⟨stripHref c.checkHost href, [fu], "", none⟩ : NodeInfo)]).length
      rw [List.length_append]
      rcases mem_setAdd hi' with h1 | h1
      · have := hT i h1
        simp only [List.length_cons, List.length_nil]
        omega
      · subst h1
        simp only [List.length_cons, List.length_nil]
        omega
    · intro n hn
      have hn' : n ∈ s.nodes
          ++ [(⟨stripHref c.checkHost href, [fu], "", none⟩ : NodeInfo)] := hn
      rcases List.mem_append.mp hn' with h1 | h2
      · exact hU n h1
      · rw [List.mem_singleton.mp h2]
        exact hmem
    · show (U.filter (fun u => decide (u ∉ keysOf (mapSet s.allNodes
          (stripHref c.checkHost href) s.nodes.length)))).length
        + (setAdd s.targetNodes s.nodes.length).length
        ≤ (U.filter (fun u => decide (u ∉ keysOf s.allNodes))).length
          + s.targetNodes.length
      have hkeys : keysOf (mapSet s.allNodes (stripHref c.checkHost href)
          s.nodes.length)
          = keysOf s.allNodes ++ [stripHref c.checkHost href] := by
        rw [keysOf_mapSet, if_neg hkey]
      rw [hkeys, setAdd_of_not_mem hnew, List.length_append]
      have hflt := filter_not_mem_append_lt U (keysOf s.allNodes)
        (stripHref c.checkHost href) hmem hkey
      simp only [List.length_cons, List.length_nil]
      omega

theorem foldl_processLink_step (c : Checker) (fu : String) (U : List String) :
    ∀ (links : List String) (s : CheckerState),
      (∀ i ∈ s.targetNodes, i < s.nodes.length) →
      (∀ n ∈ s.nodes, n.url ∈ U) →
      (∀ h ∈ links, stripHref c.checkHost h ∈ U) →
      (∀ i ∈ (links.foldl (processLink c fu) s).targetNodes,
          i < ((links.foldl (processLink c fu) s)).nodes.length) ∧
      (∀ n ∈ (links.foldl (processLink c fu) s).nodes, n.url ∈ U) ∧
      crawlMeasure U (links.foldl (processLink c fu) s)
        ≤ crawlMeasure U s := by
  intro links
  induction links with
  | nil =>
    intro s hT hU _
    exact ⟨hT, hU, le_refl _⟩
  | cons l ls ih =>
    intro s hT hU hlinks
    rw [List.foldl_cons]
    obtain ⟨hT1, hU1, hm1⟩ := processLink_step c fu U s l hT hU
      (hlinks l (by simp))
    obtain ⟨hT2, hU2, hm2⟩ := ih (processLink c fu s l) hT1 hU1
      (fun h hh => hlinks h (List.mem_cons_of_mem _ hh))
    exact ⟨hT2, hU2, le_trans hm2 hm1⟩

theorem markErrored_step (U : List String) (s : CheckerState) (id : Nat)
    (msg : String)
    (hT : ∀ i ∈ s.targetNodes, i < s.nodes.length)
    (hU : ∀ n ∈ s.nodes, n.url ∈ U) :
    (∀ i ∈ (markErrored s id msg).targetNodes,
        i < (markErrored s id msg).nodes.length) ∧
    (∀ n ∈ (markErrored s id msg).nodes, n.url ∈ U) ∧
    crawlMeasure U (markErrored s id msg) = crawlMeasure U s := by
  refine ⟨?_, ?_, rfl⟩
  · intro j hj
    show j < (s.nodes.set id { getNode s id with error := some msg }).length
    rw [List.length_set]
    exact hT j hj
  · intro m hm
    have hm' : m ∈ (setNode s id
        { getNode s id with error := some msg }).nodes := hm
    exact setNode_invU { getNode s id with error := some msg } hU rfl m hm'

theorem successState_invT (s : CheckerState) (id : Nat) (title : String)
    (hT : ∀ i ∈ s.targetNodes, i < s.nodes.length) :
    ∀ i ∈ ({ setNode s id { getNode s id with title := title } with
        finishedOurNodes := setAdd s.finishedOurNodes id } :
          CheckerState).targetNodes,
      i < ({ setNode s id { getNode s id with title := title } with
        finishedOurNodes := setAdd s.finishedOurNodes id } :
          CheckerState).nodes.length := by
  intro j hj
  show j < (s.nodes.set id { getNode s id with title := title }).length
  rw [List.length_set]
  exact hT j hj

theorem successState_invU (U : List String) (s : CheckerState) (id : Nat)
    (title : String) (hU : ∀ n ∈ s.nodes, n.url ∈ U) :
    ∀ m ∈ ({ setNode s id { getNode s id with title := title } with
        finishedOurNodes := setAdd s.finishedOurNodes id } :
          CheckerState).nodes,
      m.url ∈ U := by
  intro m hm
  have hm' : m ∈ (setNode s id
      { getNode s id with title := title }).nodes := hm
  exact setNode_invU { getNode s id with title := title } hU rfl m hm'

theorem checkPageSuccess_step (c : Checker) (U : List String)
    (s : CheckerState) (id : Nat) (ext : Bool) (raw title : String)
    (links : List String)
    (hT : ∀ i ∈ s.targetNodes, i < s.nodes.length)
    (hU : ∀ n ∈ s.nodes, n.url ∈ U)
    (hlinks : ∀ h ∈ links, stripHref c.checkHost h ∈ U) :
    (∀ i ∈ (checkPageSuccess c s id ext raw title links).targetNodes,
        i < (checkPageSuccess c s id ext raw title links).nodes.length) ∧
    (∀ n ∈ (checkPageSuccess c s id ext raw title links).nodes, n.url ∈ U) ∧
    crawlMeasure U (checkPageSuccess c s id ext raw title links)
      ≤ crawlMeasure U s := by
  cases ext with
  | true =>
    rw [checkPageSuccess_external]
    exact ⟨setNode_invT hT,
      setNode_invU { getNode s id with title := title } hU rfl, le_refl _⟩
  | false =>
    rw [checkPageSuccess_internal]
    obtain ⟨h1, h2, h3⟩ := foldl_processLink_step c raw U links
      { setNode s id { getNode s id with title := title } with
        finishedOurNodes := setAdd s.finishedOurNodes id }
      (successState_invT s id title hT) (successState_invU U s id title hU)
      hlinks
    have hms : crawlMeasure U
        ({ setNode s id { getNode s id with title := title } with
          finishedOurNodes := setAdd s.finishedOurNodes id } : CheckerState)
        = crawlMeasure U s := rfl
    exact ⟨h1, h2, le_trans h3 (le_of_eq hms)⟩

theorem handleFetch_step (c : Checker) (U : List String) (s : CheckerState)
    (id : Nat) (ext : Bool) (raw : String) (fr : FetchResult)
    (hT : ∀ i ∈ s.targetNodes, i < s.nodes.length)
    (hU : ∀ n ∈ s.nodes, n.url ∈ U)
    (hlinks : ∀ h ∈ linksOf fr, stripHref c.checkHost h ∈ U) :
    (∀ i ∈ (handleFetch c s id ext raw fr).targetNodes,
        i < (handleFetch c s id ext raw fr).nodes.length) ∧
    (∀ n ∈ (handleFetch c s id ext raw fr).nodes, n.url ∈ U) ∧
    crawlMeasure U (handleFetch c s id ext raw fr) ≤ crawlMeasure U s := by
  cases fr with
  | throws msg =>
    rw [handleFetch_throws]
    obtain ⟨h1, h2, h3⟩ := markErrored_step U s id msg hT hU
    exact ⟨h1, h2, le_of_eq h3⟩
  | ok res title links =>
    have hlinks' : ∀ h ∈ links, stripHref c.checkHost h ∈ U := hlinks
    cases res with
    | none =>
      rw [handleFetch_none]
      exact checkPageSuccess_step c U s id ext raw title links hT hU hlinks'
    | some status =>
      by_cases hbad : status < 200 ∨ 400 ≤ status
      · rw [handleFetch_bad_status c s id ext raw status title links hbad]
        obtain ⟨h1, h2, h3⟩ := markErrored_step U s id _ hT hU
        exact ⟨h1, h2, le_of_eq h3⟩
      · push_neg at hbad
        rw [handleFetch_good_status c s id ext raw status title links
          hbad.1 hbad.2]
        exact checkPageSuccess_step c U s id ext raw title links hT hU hlinks'

theorem checkPage_step (c : Checker) (fetch : String → FetchResult)
    (U : List String) (s : CheckerState) (id : Nat)
    (hT : ∀ i ∈ s.targetNodes, i < s.nodes.length)
    (hU : ∀ n ∈ s.nodes, n.url ∈ U)
    (hlinks : ∀ h ∈ linksOf (fetch (toCheckUrl c.checkHost
        (getNode s id).url)), stripHref c.checkHost h ∈ U) :
    (∀ i ∈ (checkPage c fetch s id).targetNodes,
        i < (checkPage c fetch s id).nodes.length) ∧
    (∀ n ∈ (checkPage c fetch s id).nodes, n.url ∈ U) ∧
    crawlMeasure U (checkPage c fetch s id) ≤ crawlMeasure U s := by
  by_cases hskip : ((!(jsStartsWith (toCheckUrl c.checkHost (getNode s id).url)
      c.checkHost)) && !c.checkExternalLinks) = true
  · rw [checkPage_skip_cond c fetch s id hskip]
    exact ⟨hT, hU, le_refl _⟩
  · have hproc : ((!(jsStartsWith (toCheckUrl c.checkHost (getNode s id).url)
        c.checkHost)) && !c.checkExternalLinks) = false := by
      rcases Bool.eq_false_or_eq_true ((!(jsStartsWith
        (toCheckUrl c.checkHost (getNode s id).url) c.checkHost))
          && !c.checkExternalLinks) with h1 | h1
      · exact absurd h1 hskip
      · exact h1
    rw [checkPage_eq_handleFetch fetch hproc]
    exact handleFetch_step c U s id _ _ _ hT hU hlinks

theorem popNext_measure (U : List String) {s : CheckerState} {i : Nat}
    {s' : CheckerState} (h : popNext s = some (i, s')) :
    crawlMeasure U s' + 1 = crawlMeasure U s := by
  obtain ⟨hi, _, rfl⟩ := popNext_eq_some h
  show urlBudget U s + (s.targetNodes.erase i).length + 1
    = urlBudget U s + s.targetNodes.length
  have h1 := List.length_erase_of_mem hi
  have h2 := List.length_pos_of_mem hi
  omega

theorem runLoop_terminates (c : Checker) (fetch : String → FetchResult)
    (U : List String)
    (hclosed : ∀ u ∈ U, ∀ h ∈ linksOf (fetch (toCheckUrl c.checkHost u)),
        stripHref c.checkHost h ∈ U) :
    ∀ (fuel : Nat) (s : CheckerState),
      (∀ i ∈ s.targetNodes, i < s.nodes.length) →
      (∀ n ∈ s.nodes, n.url ∈ U) →
      crawlMeasure U s ≤ fuel →
      (runLoop c fetch fuel s).targetNodes = [] := by
  intro fuel
  induction fuel with
  | zero =>
    intro s hT hU hf
    have hlen : s.targetNodes.length = 0 := by
      unfold crawlMeasure at hf
      omega
    rw [runLoop_zero]
    exact List.eq_nil_of_length_eq_zero hlen
  | succ f ih =>
    intro s hT hU hf
    rw [runLoop_succ]
    cases hp : popNext s with
    | none => exact popNext_eq_none_iff.mp hp
    | some pair =>
      obtain ⟨i, s1⟩ := pair
      have hmeas := popNext_measure U hp
      obtain ⟨hmem, _, hs1⟩ := popNext_eq_some hp
      have hiu : (getNode s i).url ∈ U := hU _ (getNode_mem (hT i hmem))
      subst hs1
      have hT1 : ∀ j ∈ ({ s with targetNodes := s.targetNodes.erase i } :
          CheckerState).targetNodes,
          j < ({ s with targetNodes := s.targetNodes.erase i } :
            CheckerState).nodes.length :=
        fun j hj => hT j (List.mem_of_mem_erase hj)
      have hstep := checkPage_step c fetch U
        { s with targetNodes := s.targetNodes.erase i } i hT1 hU
        (hclosed _ hiu)
      apply ih
      · exact hstep.1
      · exact hstep.2.1
      · have := hstep.2.2
        omega

/-! ## Claims -/

/-- Claim C1: whenever the frontier is non-empty, the node processed next is
a pending node whose URL is lexicographically smallest among all current
frontier members, and it is removed from the frontier (nothing else about
the state changes at the pop); when the frontier is empty the loop ends
(`popNext` returns `none`). -/
theorem checker_pop_min (s : CheckerState) :
    (popNext s = none ↔ s.targetNodes = []) ∧
    (∀ i s', popNext s = some (i, s') →
      i ∈ s.targetNodes ∧
      (∀ j ∈ s.targetNodes, (getNode s i).url ≤ (getNode s j).url) ∧
      s'.targetNodes = s.targetNodes.erase i ∧
      s'.nodes = s.nodes ∧ s'.allNodes = s.allNodes ∧
      s'.finishedOurNodes = s.finishedOurNodes ∧
      s'.errorNodes = s.errorNodes) := by
  refine ⟨popNext_eq_none_iff, ?_⟩
  intro i s' h
  obtain ⟨h1, h2, rfl⟩ := popNext_eq_some h
  exact ⟨h1, h2, rfl, rfl, rfl, rfl, rfl⟩

theorem checker_pop_min_witness :
    0 ∈ wState.targetNodes ∧
    (∀ j ∈ wState.targetNodes, (getNode wState 0).url ≤ (getNode wState j).url) ∧
    wPopped.targetNodes = wState.targetNodes.erase 0 ∧
    wPopped.nodes = wState.nodes ∧ wPopped.allNodes = wState.allNodes ∧
    wPopped.finishedOurNodes = wState.finishedOurNodes ∧
    wPopped.errorNodes = wState.errorNodes :=
  (checker_pop_min wState).2 0 wPopped (by decide)

/-- Claim C2: the sitemap document is the header, then one entry per node of
the finished set sorted by URL ascending with block-listed URLs (exact string
match) removed, each entry's location being the output host concatenated with
the node's URL, then the footer; and when `outputHost` is not configured the
constructor defaults it to `checkHost`. -/
theorem checker_sitemap_spec :
    (∀ (c : Checker) (s : CheckerState), c.sitemapPath.isSome = true →
      writeSitemap c s
        = some (sitemapHeader ++ specSitemapBody c s ++ "</urlset>")) ∧
    (∀ opts : CheckerOptions, opts.outputHost = none →
      (mkChecker opts).outputHost = opts.checkHost) := by
  constructor
  · intro c s hp
    obtain ⟨p, hsp⟩ := Option.isSome_iff_exists.mp hp
    unfold writeSitemap
    rw [hsp]
    dsimp only
    rw [foldl_sitemap_body (fun i => c.blackList.contains (getNode s i).url)
        (fun i => sitemapEntry c.outputHost (getNode s i).url)]
    rw [specSitemapBody]
    simp
  · intro opts h
    simp [mkChecker, h]

theorem checker_sitemap_spec_witness :
    writeSitemap wChecker wState
      = some (sitemapHeader ++ specSitemapBody wChecker wState ++ "</urlset>") ∧
    (mkChecker wOpts).outputHost = wOpts.checkHost :=
  ⟨checker_sitemap_spec.1 wChecker wState (by decide),
   checker_sitemap_spec.2 wOpts rfl⟩

/-- Claim C6: URL normalisation is asymmetric.  A node URL beginning with
`http://` or `https://` is used verbatim as the fetch target, any other node
URL gets the check host prepended; an extracted link target beginning with
the check-host prefix has that prefix stripped to form its registry key,
while every other target (including absolute URLs of other hosts) is kept
as-is, and a new link node is registered under exactly that key. -/
theorem checker_url_normalisation :
    (∀ host url : String,
      ((jsStartsWith url "http://" || jsStartsWith url "https://") = true →
        toCheckUrl host url = url) ∧
      ((jsStartsWith url "http://" || jsStartsWith url "https://") = false →
        toCheckUrl host url = host ++ url)) ∧
    (∀ host href : String,
      (jsStartsWith href host = true →
        stripHref host href = jsSubstrFrom href host.length) ∧
      (jsStartsWith href host = false → stripHref host href = href)) ∧
    (∀ (c : Checker) (fromUrl : String) (s : CheckerState) (href : String),
      mapGet s.allNodes (stripHref c.checkHost href) = none →
      (processLink c fromUrl s href).allNodes
        = mapSet s.allNodes (stripHref c.checkHost href) s.nodes.length ∧
      (processLink c fromUrl s href).nodes
        = s.nodes ++ [{ url := stripHref c.checkHost href, refs := [fromUrl],
                        title := "", error := none }]) := by
  refine ⟨?_, ?_, ?_⟩
  · intro host url
    constructor <;> intro h <;> simp [toCheckUrl, h]
  · intro host href
    constructor <;> intro h <;> simp [stripHref, h]
  · intro c fromUrl s href h
    rw [processLink]
    rw [h]
    exact ⟨rfl, rfl⟩

theorem checker_url_normalisation_witness :
    toCheckUrl "http://h" "https://x/p" = "https://x/p" ∧
    toCheckUrl "http://h" "/a" = "http://h" ++ "/a" ∧
    stripHref "http://h" "http://h/a" = jsSubstrFrom "http://h/a" "http://h".length ∧
    stripHref "http://h" "http://x/" = "http://x/" ∧
    (processLink wChecker "/" wState "http://h/new").allNodes
      = mapSet wState.allNodes (stripHref wChecker.checkHost "http://h/new")
          wState.nodes.length :=
  ⟨(checker_url_normalisation.1 "http://h" "https://x/p").1 (by decide),
   (checker_url_normalisation.1 "http://h" "/a").2 (by decide),
   (checker_url_normalisation.2.1 "http://h" "http://h/a").1 (by decide),
   (checker_url_normalisation.2.1 "http://h" "http://x/").2 (by decide),
   ((checker_url_normalisation.2.2 wChecker "/" wState "http://h/new")
     (by decide)).1⟩

/-- Claim C10: external-link checking is enabled exactly when the supplied
`checkExternalLinks` option is the boolean `true`; for any other runtime
value (including truthy non-booleans) the constructed checker is identical
to one built with the option `false`, so the crawl behaves as if external
checking were disabled. -/
theorem checker_external_flag_strict :
    (∀ opts : CheckerOptions,
      (mkChecker opts).checkExternalLinks = true ↔
        opts.checkExternalLinks = JSValue.bool true) ∧
    (∀ (opts : CheckerOptions) (v : JSValue), v ≠ JSValue.bool true →
      mkChecker { opts with checkExternalLinks := v }
        = mkChecker { opts with checkExternalLinks := JSValue.bool false }) := by
  constructor
  · intro opts
    simp [mkChecker]
  · intro opts v hv
    have hb : (v == JSValue.bool true) = false := by
      simp [hv]
    simp [mkChecker, hb]

theorem checker_external_flag_strict_witness :
    ((mkChecker wOpts).checkExternalLinks = true ↔
      wOpts.checkExternalLinks = JSValue.bool true) ∧
    JSValue.truthy (JSValue.num 1) = true ∧
    mkChecker { wOpts with checkExternalLinks := JSValue.num 1 }
      = mkChecker { wOpts with checkExternalLinks := JSValue.bool false } :=
  ⟨checker_external_flag_strict.1 wOpts, by decide,
   checker_external_flag_strict.2 wOpts (JSValue.num 1) (by decide)⟩

/-- The claim says a bad status is recorded as exactly `"Status: <code>"`,
but the code records `ex.toString()` of `new Error("Status: <code>")`, which
carries the `"Error: "` prefix: on a `404` response the node's error is
`"Error: Status: 404"`, not `"Status: 404"`. -/
theorem checker_bad_status_counterexample :
    (getNode (checkPage wChecker wFetch404 wBadState 0) 0).error
        = some "Error: Status: 404" ∧
    (getNode (checkPage wChecker wFetch404 wBadState 0) 0).error
        ≠ some "Status: 404" := by
  constructor
  · decide
  · decide

/-- Claim C3 (amended): when a fetch returns a response whose status code is
outside `[200, 400)`, the node is marked errored with error description
exactly `"Error: Status: <code>"` (the thrown `Error`'s string form), and
processing of that node stops with no link extraction and no finished
marking: the frontier, registry, finished set and every other node are
unchanged, and the node joins the error set. -/
theorem checker_bad_status (c : Checker) (fetch : String → FetchResult)
    (s : CheckerState) (id : Nat) (status : Int) (title : String)
    (links : List String)
    (hid : id < s.nodes.length)
    (hproc : ((!(jsStartsWith (toCheckUrl c.checkHost (getNode s id).url)
        c.checkHost)) && !c.checkExternalLinks) = false)
    (hfetch : fetch (toCheckUrl c.checkHost (getNode s id).url)
        = FetchResult.ok (some status) title links)
    (hrange : status < 200 ∨ 400 ≤ status) :
    (getNode (checkPage c fetch s id) id).error
        = some ("Error: Status: " ++ toString status) ∧
    (checkPage c fetch s id).errorNodes = setAdd s.errorNodes id ∧
    (checkPage c fetch s id).targetNodes = s.targetNodes ∧
    (checkPage c fetch s id).allNodes = s.allNodes ∧
    (checkPage c fetch s id).finishedOurNodes = s.finishedOurNodes ∧
    (∀ j, j ≠ id → getNode (checkPage c fetch s id) j = getNode s j) := by
  rw [checkPage_eq_handleFetch fetch hproc, hfetch,
    handleFetch_bad_status c s id _ _ status title links hrange]
  refine ⟨?_, rfl, rfl, rfl, rfl, ?_⟩
  · rw [markErrored_error _ hid]
    have hs : ("Error: " : String) ++ "Status: " = "Error: Status: " := by decide
    rw [errorToString, ← String.append_assoc, hs]
  · intro j hj
    exact markErrored_getNode_ne _ hj

theorem checker_bad_status_witness :
    (getNode (checkPage wChecker wFetch404 wBadState 0) 0).error
        = some ("Error: Status: " ++ toString (404 : Int)) ∧
    (checkPage wChecker wFetch404 wBadState 0).errorNodes
        = setAdd wBadState.errorNodes 0 ∧
    (checkPage wChecker wFetch404 wBadState 0).targetNodes
        = wBadState.targetNodes ∧
    (checkPage wChecker wFetch404 wBadState 0).allNodes = wBadState.allNodes ∧
    (checkPage wChecker wFetch404 wBadState 0).finishedOurNodes
        = wBadState.finishedOurNodes ∧
    (∀ j, j ≠ 0 → getNode (checkPage wChecker wFetch404 wBadState 0) j
        = getNode wBadState j) :=
  checker_bad_status wChecker wFetch404 wBadState 0 404 "" []
    (by decide) (by decide) rfl (by decide)

/-- Claim C5: for a node classified external (its fetch target does not
begin with the check host), its outbound links are never examined (the
outcome does not depend on the links the renderer reports), processing never
changes the frontier, registry or finished set, and when `checkExternalLinks`
is `false` the node is not fetched at all: the state is returned unchanged,
whatever the fetcher would do. -/
theorem checker_external_non_expansion (c : Checker) (s : CheckerState)
    (id : Nat)
    (hext : jsStartsWith (toCheckUrl c.checkHost (getNode s id).url) c.checkHost
      = false) :
    (∀ fetch : String → FetchResult,
      (checkPage c fetch s id).targetNodes = s.targetNodes ∧
      (checkPage c fetch s id).allNodes = s.allNodes ∧
      (checkPage c fetch s id).finishedOurNodes = s.finishedOurNodes) ∧
    (∀ (f g : String → FetchResult) (res : Option Int) (title : String)
        (l1 l2 : List String),
      f (toCheckUrl c.checkHost (getNode s id).url)
          = FetchResult.ok res title l1 →
      g (toCheckUrl c.checkHost (getNode s id).url)
          = FetchResult.ok res title l2 →
      checkPage c f s id = checkPage c g s id) ∧
    (c.checkExternalLinks = false →
      ∀ fetch : String → FetchResult, checkPage c fetch s id = s) := by
  cases hce : c.checkExternalLinks with
  | false =>
    refine ⟨?_, ?_, ?_⟩
    · intro fetch
      rw [checkPage_skip fetch hext hce]
      exact ⟨rfl, rfl, rfl⟩
    · intro f g res title l1 l2 hf hg
      rw [checkPage_skip f hext hce, checkPage_skip g hext hce]
    · intro _ fetch
      exact checkPage_skip fetch hext hce
  | true =>
    have hproc : ((!(jsStartsWith (toCheckUrl c.checkHost (getNode s id).url)
        c.checkHost)) && !c.checkExternalLinks) = false := by
      rw [hext, hce]
      rfl
    refine ⟨?_, ?_, ?_⟩
    · intro fetch
      rw [checkPage_eq_handleFetch fetch hproc, hext]
      simp only [Bool.not_false]
      cases hf : fetch (toCheckUrl c.checkHost (getNode s id).url) with
      | throws msg =>
        rw [handleFetch_throws]
        exact ⟨rfl, rfl, rfl⟩
      | ok res title links =>
        cases res with
        | none =>
          rw [handleFetch_none, checkPageSuccess_external]
          exact ⟨rfl, rfl, rfl⟩
        | some status =>
          by_cases hbad : status < 200 ∨ 400 ≤ status
          · rw [handleFetch_bad_status c s id _ _ status title links hbad]
            exact ⟨rfl, rfl, rfl⟩
          · push_neg at hbad
            rw [handleFetch_good_status c s id _ _ status title links
                (not_lt.mp (fun h => absurd (Or.inl h) (by
                  intro hor
                  rcases hor with h1 | h2
                  · exact absurd h1 (not_lt.mpr hbad.1)
                  · exact absurd h2 (not_le.mpr hbad.2))) ) hbad.2,
              checkPageSuccess_external]
            exact ⟨rfl, rfl, rfl⟩
    · intro f g res title l1 l2 hf hg
      rw [checkPage_eq_handleFetch f hproc, checkPage_eq_handleFetch g hproc,
        hf, hg, hext]
      simp only [Bool.not_false]
      cases res with
      | none =>
        rw [handleFetch_none, handleFetch_none, checkPageSuccess_external,
          checkPageSuccess_external]
      | some status =>
        by_cases hbad : status < 200 ∨ 400 ≤ status
        · rw [handleFetch_bad_status c s id _ _ status title l1 hbad,
            handleFetch_bad_status c s id _ _ status title l2 hbad]
        · push_neg at hbad
          rw [handleFetch_good_status c s id _ _ status title l1 hbad.1 hbad.2,
            handleFetch_good_status c s id _ _ status title l2 hbad.1 hbad.2,
            checkPageSuccess_external, checkPageSuccess_external]
    · intro hdis
      cases hdis

theorem checker_external_non_expansion_witness :
    ((checkPage wChecker wFetchA wExtState 0).targetNodes
        = wExtState.targetNodes ∧
      (checkPage wChecker wFetchA wExtState 0).allNodes = wExtState.allNodes ∧
      (checkPage wChecker wFetchA wExtState 0).finishedOurNodes
        = wExtState.finishedOurNodes) ∧
    checkPage wCheckerExt wFetchA wExtState 0
      = checkPage wCheckerExt wFetchB wExtState 0 ∧
    checkPage wChecker wFetchA wExtState 0 = wExtState :=
  ⟨(checker_external_non_expansion wChecker wExtState 0 (by decide)).1 wFetchA,
   (checker_external_non_expansion wCheckerExt wExtState 0 (by decide)).2.1
     wFetchA wFetchB (some 200) "T" ["http://h/p"] [] rfl rfl,
   (checker_external_non_expansion wChecker wExtState 0 (by decide)).2.2
     rfl wFetchA⟩

/-- Claim C7: when navigation completes with no response object, the fetch
is treated as success: no error is recorded (the node's error field and the
error set are unchanged), the title is recorded, and for an internal node
the node is marked finished and every extracted link ends up registered. -/
theorem checker_no_response_success (c : Checker)
    (fetch : String → FetchResult) (s : CheckerState) (id : Nat)
    (title : String) (links : List String)
    (hid : id < s.nodes.length)
    (hproc : ((!(jsStartsWith (toCheckUrl c.checkHost (getNode s id).url)
        c.checkHost)) && !c.checkExternalLinks) = false)
    (hfetch : fetch (toCheckUrl c.checkHost (getNode s id).url)
        = FetchResult.ok none title links) :
    (checkPage c fetch s id).errorNodes = s.errorNodes ∧
    (getNode (checkPage c fetch s id) id).error = (getNode s id).error ∧
    (getNode (checkPage c fetch s id) id).title = title ∧
    (jsStartsWith (toCheckUrl c.checkHost (getNode s id).url) c.checkHost
        = true →
      id ∈ (checkPage c fetch s id).finishedOurNodes ∧
      ∀ h ∈ links,
        (mapGet (checkPage c fetch s id).allNodes
          (stripHref c.checkHost h)).isSome = true) := by
  rw [checkPage_eq_handleFetch fetch hproc, hfetch, handleFetch_none]
  cases hext : jsStartsWith (toCheckUrl c.checkHost (getNode s id).url)
      c.checkHost with
  | false =>
    simp only [Bool.not_false]
    rw [checkPageSuccess_external]
    refine ⟨rfl, ?_, ?_, ?_⟩
    · rw [getNode_setNode_self _ hid]
    · rw [getNode_setNode_self _ hid]
    · intro h
      cases h
  | true =>
    simp only [Bool.not_true]
    rw [checkPageSuccess_internal]
    refine ⟨?_, ?_, ?_, ?_⟩
    · rw [foldl_processLink_errorNodes]
      rfl
    · have h1 := (foldl_processLink_error_title c (getNode s id).url links
        { setNode s id { getNode s id with title := title } with
          finishedOurNodes := setAdd s.finishedOurNodes id } id).1
      rw [h1, getNode_set_finished, getNode_setNode_self _ hid]
    · have h1 := (foldl_processLink_error_title c (getNode s id).url links
        { setNode s id { getNode s id with title := title } with
          finishedOurNodes := setAdd s.finishedOurNodes id } id).2
      rw [h1, getNode_set_finished, getNode_setNode_self _ hid]
    · intro _
      constructor
      · rw [foldl_processLink_finished]
        exact mem_setAdd_self _ _
      · intro h hh
        exact foldl_processLink_keys c (getNode s id).url links _ h hh

theorem checker_no_response_success_witness :
    (checkPage wChecker wFetchNone wOneState 0).errorNodes
        = wOneState.errorNodes ∧
    (getNode (checkPage wChecker wFetchNone wOneState 0) 0).error
        = (getNode wOneState 0).error ∧
    (getNode (checkPage wChecker wFetchNone wOneState 0) 0).title = "Home" ∧
    (jsStartsWith (toCheckUrl wChecker.checkHost (getNode wOneState 0).url)
        wChecker.checkHost = true →
      0 ∈ (checkPage wChecker wFetchNone wOneState 0).finishedOurNodes ∧
      ∀ h ∈ ["http://h/a"],
        (mapGet (checkPage wChecker wFetchNone wOneState 0).allNodes
          (stripHref wChecker.checkHost h)).isSome = true) :=
  checker_no_response_success wChecker wFetchNone wOneState 0 "Home"
    ["http://h/a"] (by decide) (by decide) rfl

/-- Claim C8: at every point of a run (any fuel, any site, any seeds) no
node's referrer list contains a duplicate source URL; and recording a link
to an already-known node whose referrer list already contains the source is
a no-op. -/
theorem checker_no_duplicate_referrers :
    (∀ (c : Checker) (fetch : String → FetchResult) (paths : List String)
        (fuel : Nat),
      ∀ m ∈ (runLoop c fetch fuel (registerSeeds initState paths)).nodes,
        m.refs.Nodup) ∧
    (∀ (c : Checker) (fu : String) (s : CheckerState) (href : String)
        (rid : Nat),
      mapGet s.allNodes (stripHref c.checkHost href) = some rid →
      fu ∈ (getNode s rid).refs →
      processLink c fu s href = s) := by
  constructor
  · intro c fetch paths fuel
    apply runLoop_refs_nodup
    apply registerSeeds_refs_nodup
    intro m hm
    cases hm
  · intro c fu s href rid hm hf
    exact processLink_noop_eq c fu s href rid hm hf

theorem checker_no_duplicate_referrers_witness :
    (getNode (runLoop wChecker wSiteFetch 5 (registerSeeds initState ["/"]))
      1).refs.Nodup ∧
    processLink wChecker "/" wState "http://h/a" = wState :=
  ⟨checker_no_duplicate_referrers.1 wChecker wSiteFetch ["/"] 5
     (getNode (runLoop wChecker wSiteFetch 5 (registerSeeds initState ["/"])) 1)
     (by decide),
   checker_no_duplicate_referrers.2 wChecker "/" wState "http://h/a" 1
     (by decide) (by decide)⟩

/-- The claim says seed registration creates a Node only if the URL is not
already present, but `runInternal` creates one unconditionally: registering
the seed paths `["/", "/"]` first binds `"/"` in the registry and then still
creates a second Node object with empty referrers and the same URL. -/
theorem checker_registry_counterexample :
    mapGet (registerSeed initState "/").allNodes "/" = some 0 ∧
    (registerSeed (registerSeed initState "/") "/").nodes.length = 2 ∧
    (getNode (registerSeed (registerSeed initState "/") "/") 1).refs = [] ∧
    (getNode (registerSeed (registerSeed initState "/") "/") 0).url
      = (getNode (registerSeed (registerSeed initState "/") "/") 1).url := by
  refine ⟨?_, ?_, ?_, ?_⟩
  · decide
  · decide
  · decide
  · decide

/-- Claim C4 (amended): the registry map binds each URL to at most one node
at every point of a run (its keys are distinct); link discovery creates a
Node only when its URL is not yet a key; but seed registration creates a
fresh Node with empty referrers unconditionally — overwriting any existing
binding — so repeated seed paths yield multiple Node objects sharing one
URL, of which only the last is in the registry. -/
theorem checker_registry_unique :
    (∀ (c : Checker) (fetch : String → FetchResult) (paths : List String)
        (fuel : Nat),
      (keysOf (runLoop c fetch fuel
        (registerSeeds initState paths)).allNodes).Nodup) ∧
    (∀ (c : Checker) (fu : String) (s : CheckerState) (href : String)
        (rid : Nat),
      mapGet s.allNodes (stripHref c.checkHost href) = some rid →
      (processLink c fu s href).nodes.length = s.nodes.length) ∧
    (∀ (s : CheckerState) (p : String),
      (registerSeed s p).nodes.length = s.nodes.length + 1 ∧
      (registerSeed s p).allNodes = mapSet s.allNodes p s.nodes.length) := by
  refine ⟨?_, ?_, ?_⟩
  · intro c fetch paths fuel
    apply runLoop_keys_nodup
    apply registerSeeds_keys_nodup
    exact List.nodup_nil
  · intro c fu s href rid hm
    by_cases hf : fu ∈ (getNode s rid).refs
    · rw [processLink_noop_eq c fu s href rid hm hf]
    · rw [processLink_push_eq c fu s href rid hm hf]
      simp [setNode]
  · intro s p
    constructor
    · simp [registerSeed]
    · rfl

theorem checker_registry_unique_witness :
    (keysOf (runLoop wChecker wSiteFetch 5
      (registerSeeds initState ["/"])).allNodes).Nodup ∧
    (processLink wChecker "/" wState "http://h/a").nodes.length
        = wState.nodes.length ∧
    (registerSeed wState "/b").nodes.length = wState.nodes.length + 1 :=
  ⟨checker_registry_unique.1 wChecker wSiteFetch ["/"] 5,
   checker_registry_unique.2.1 wChecker "/" wState "http://h/a" 1 (by decide),
   (checker_registry_unique.2.2 wState "/b").1⟩

/-- The claim says each distinct URL is added to the frontier at most once,
but repeated seed paths each create a fresh Node: seeding `["/", "/"]` puts
two distinct pending nodes with URL `"/"` on the frontier. -/
theorem checker_termination_counterexample :
    (registerSeeds initState ["/", "/"]).targetNodes = [0, 1] ∧
    (getNode (registerSeeds initState ["/", "/"]) 0).url = "/" ∧
    (getNode (registerSeeds initState ["/", "/"]) 1).url = "/" := by
  refine ⟨?_, ?_, ?_⟩
  · decide
  · decide
  · decide

/-- Claim C9 (amended): for any finite URL universe `U` containing every
node URL and closed under link extraction, the crawl loop terminates within
`crawlMeasure U` iterations (the frontier is empty afterwards); every loop
iteration removes exactly one node from the frontier; a frontier entry is
added only at node creation — link discovery adds the freshly created node
(never an existing one), and only when its URL is not yet registered — but
repeated seed paths may put several nodes with the same URL on the
frontier. -/
theorem checker_crawl_terminates :
    (∀ (c : Checker) (fetch : String → FetchResult) (U : List String),
      (∀ u ∈ U, ∀ h ∈ linksOf (fetch (toCheckUrl c.checkHost u)),
        stripHref c.checkHost h ∈ U) →
      ∀ (s : CheckerState),
        (∀ i ∈ s.targetNodes, i < s.nodes.length) →
        (∀ n ∈ s.nodes, n.url ∈ U) →
        ∀ fuel, crawlMeasure U s ≤ fuel →
        (runLoop c fetch fuel s).targetNodes = []) ∧
    (∀ (s : CheckerState) (i : Nat) (s' : CheckerState),
      popNext s = some (i, s') →
      s'.targetNodes.length + 1 = s.targetNodes.length) ∧
    (∀ (c : Checker) (fu : String) (s : CheckerState) (href : String),
      (∀ i ∈ s.targetNodes, i < s.nodes.length) →
      mapGet s.allNodes (stripHref c.checkHost href) = none →
      (processLink c fu s href).targetNodes
          = s.targetNodes ++ [s.nodes.length] ∧
      s.nodes.length ∉ s.targetNodes) ∧
    (∀ (c : Checker) (fu : String) (s : CheckerState) (href : String)
        (rid : Nat),
      mapGet s.allNodes (stripHref c.checkHost href) = some rid →
      (processLink c fu s href).targetNodes = s.targetNodes) := by
  refine ⟨?_, ?_, ?_, ?_⟩
  · intro c fetch U hclosed s hT hU fuel hf
    exact runLoop_terminates c fetch U hclosed fuel s hT hU hf
  · intro s i s' hp
    obtain ⟨hi, _, rfl⟩ := popNext_eq_some hp
    show (s.targetNodes.erase i).length + 1 = s.targetNodes.length
    have h1 := List.length_erase_of_mem hi
    have h2 := List.length_pos_of_mem hi
    omega
  · intro c fu s href hT hm
    have hnew : s.nodes.length ∉ s.targetNodes := fun hmem' =>
      lt_irrefl _ (hT _ hmem')
    rw [processLink_none_eq c fu s href hm]
    exact ⟨setAdd_of_not_mem hnew, hnew⟩
  · intro c fu s href rid hm
    by_cases hf : fu ∈ (getNode s rid).refs
    · rw [processLink_noop_eq c fu s href rid hm hf]
    · rw [processLink_push_eq c fu s href rid hm hf]
      rfl

theorem checker_crawl_terminates_witness :
    (runLoop wChecker wSiteFetch 5 (registerSeeds initState ["/"])).targetNodes
        = [] ∧
    wPopped.targetNodes.length + 1 = wState.targetNodes.length ∧
    ((processLink wChecker "/" wOneState "http://h/new").targetNodes
        = wOneState.targetNodes ++ [wOneState.nodes.length] ∧
      wOneState.nodes.length ∉ wOneState.targetNodes) ∧
    (processLink wChecker "/" wState "http://h/a").targetNodes
        = wState.targetNodes :=
  ⟨checker_crawl_terminates.1 wChecker wSiteFetch wUniverse (by decide)
     (registerSeeds initState ["/"]) (by decide) (by decide) 5 (by decide),
   checker_crawl_terminates.2.1 wState 0 wPopped (by decide),
   checker_crawl_terminates.2.2.1 wChecker "/" wOneState "http://h/new"
     (by decide) (by decide),
   checker_crawl_terminates.2.2.2 wChecker "/" wState "http://h/a" 1
     (by decide)⟩
